import Mathlib

/-!
# Verification of the TaskAgile (No_Gas_Slaps) convergence core

Shallow embedding of the repository's convergence core, translated from the
JavaScript/TypeScript sources:

* `src/client/modules/state.js` — rate limiter / combo engine (`slap`,
  `isValidTapRate`, `calculateCombo`, `applyPowerUpEffects`, achievements,
  power-up unlocks, `claimDailyReward`);
* `src/modules/ui.js` (embedded server entry) — authoritative arena server
  (`slap` message handler of the WebSocket connection loop);
* `src/modules/persistence.js` — offline sync queue (`enqueueSync`,
  `dequeueSync`, `processSyncQueue` selection filter, `processSyncBatch`);
* `src/client/modules/leaderboard-api.js` — leaderboard
  (`mergeLeaderboards`, `updateLeaderboard`).

Modelling conventions:

* JavaScript numbers holding integral quantities (scores, health, gas,
  timestamps, counters) are modelled as `ℤ` or `ℕ`; every value reached by
  the embedded operations is far below 2^53, so JS double arithmetic is
  exact there.  Point multipliers go through `ℚ` and `Int.floor`, mirroring
  `Math.floor`; the factors (2, 1.5, 3) and all intermediate products are
  exactly representable as doubles, so `ℚ` arithmetic agrees with the JS
  float arithmetic on these values.
* Arena positions are modelled as `ℚ`.  The source compares
  `Math.sqrt(dx*dx+dy*dy) < 60`; for nonnegative radicands this is
  equivalent to `dx*dx+dy*dy < 3600`, which is how the embedding states it.
* The JS `Array.prototype.sort` is stable (ES2019); a stable sort with a
  total preorder has a unique output, modelled by `List.insertionSort`
  with the preorder `comparator(a,b) ≤ 0`.
* `sanitizeInput` (src/client/modules/security.js) is a regex-based string
  cleaner; no claim below depends on the string transformation it performs,
  so the queue/leaderboard operations take it as an explicit function
  parameter `sanitize` and the theorems quantify over it.
* Mutable module state becomes explicit state passing; `throw` paths become
  explicit outcome constructors.
-/

namespace NoGasSlaps

/-! ## Rate limiter / combo engine (src/client/modules/state.js) -/

/-- `gameState.statistics` of state.js. -/
structure Statistics where
  totalPlayTime : Nat
  highestCombo : Nat
  totalTaps : Nat
  sessionsPlayed : Nat
  deriving Repr, DecidableEq

/-- The `gameState` object of state.js (client-local single-player state). -/
structure GameState where
  score : ℤ
  combo : Nat
  lastSlapAt : Nat
  lastComboTick : Nat
  totalSlaps : Nat
  dailyClaimed : Bool
  lastDailyClaim : Nat
  achievements : List String
  statistics : Statistics
  deriving Repr, DecidableEq

/-- One entry of the `powerUpsState` object of state.js. -/
structure PowerUp where
  unlocked : Bool
  active : Bool
  cooldown : Nat
  duration : Nat
  unlockThreshold : ℤ
  deriving Repr, DecidableEq

/-- The `powerUpsState` object of state.js (five fixed kinds). -/
structure PowerUpsState where
  doublePoints : PowerUp
  rapidFire : PowerUp
  shield : PowerUp
  magnet : PowerUp
  boost : PowerUp
  deriving Repr, DecidableEq

/-- Module-level mutable state of state.js relevant to the slap path:
`gameState`, `powerUpsState`, the anti-cheat `tapsWindow` (timestamps of
accepted taps) and `scoreHistory` ((score, timestamp) pairs). -/
structure EngineState where
  game : GameState
  powerUps : PowerUpsState
  tapsWindow : List Nat
  scoreHistory : List (ℤ × Nat)
  deriving Repr, DecidableEq

/-- Outcome of one call to `slap()` in state.js.  `accepted` is the normal
return of the awarded points; `silentIgnore` is the silent `return` on the
minimum-interval path; the two `error…` constructors are the two `throw`
sites (`'Tap rate too high. Please slow down!'` and
`'Invalid score increment detected'`). -/
inductive SlapOutcome where
  | accepted (points : ℤ)
  | silentIgnore
  | errorTapRate
  | errorInvalidIncrement
  deriving Repr, DecidableEq

/-- `calculateCombo(now)` of state.js: combo continues below the 1200 ms
`COMBO_TIMEOUT` (capped at 50), otherwise resets to 1.  `now - lastComboTick`
is ℕ-truncated subtraction; for `now < lastComboTick` JS would compute a
negative difference, which is also `< 1200`, so both agree. -/
def calculateCombo (g : GameState) (now : Nat) : Nat :=
  if now - g.lastComboTick < 1200 then min (g.combo + 1) 50 else 1

/-- `applyPowerUpEffects(basePoints)` of state.js: ×2 for doublePoints,
×1.5 for rapidFire, ×3 for boost, then `Math.floor`. -/
def applyPowerUpEffects (pows : PowerUpsState) (basePoints : ℚ) : ℤ :=
  let p := basePoints
  let p := if pows.doublePoints.active then p * 2 else p
  let p := if pows.rapidFire.active then p * (3/2) else p
  let p := if pows.boost.active then p * 3 else p
  Int.floor p

/-- `trackScoreHistory(score, timestamp)` of state.js: push the pair and keep
only the last 100 entries (`shift()` drops the oldest).  The suspicious-jump
detection that follows in the source only logs and is omitted. -/
def trackScoreHistory (h : List (ℤ × Nat)) (score : ℤ) (ts : Nat) : List (ℤ × Nat) :=
  let h := h ++ [(score, ts)]
  if 100 < h.length then h.drop 1 else h

/-- `unlockAchievement(id)` of state.js (without the DOM event). -/
def unlockAchievement (achs : List String) (a : String) : List String :=
  if a ∈ achs then achs else achs ++ [a]

/-- `checkAchievements(prevScore, newScore)` of state.js: score milestones
crossed between `prevScore` and `newScore`, then the combo-10 and combo-25
achievements (reading the already-updated combo). -/
def checkAchievements (achs : List String) (prevScore newScore : ℤ) (combo : Nat) :
    List String :=
  let milestones : List ℤ := [100, 500, 1000, 5000, 10000, 50000, 100000]
  let achs := milestones.foldl
    (fun acc m =>
      if prevScore < m ∧ m ≤ newScore then unlockAchievement acc ("score_" ++ toString m)
      else acc) achs
  let achs :=
    if combo = 10 ∧ "combo_10" ∉ achs then unlockAchievement achs "combo_10" else achs
  if combo = 25 ∧ "combo_25" ∉ achs then unlockAchievement achs "combo_25" else achs

/-- One power-up's part of `checkPowerUpUnlocks()` of state.js: one-way
unlock once the score reaches the threshold. -/
def unlockOne (p : PowerUp) (score : ℤ) : PowerUp :=
  if ¬p.unlocked ∧ p.unlockThreshold ≤ score then { p with unlocked := true } else p

/-- `checkPowerUpUnlocks()` of state.js over the five fixed kinds. -/
def checkPowerUpUnlocks (ps : PowerUpsState) (score : ℤ) : PowerUpsState :=
  { doublePoints := unlockOne ps.doublePoints score
    rapidFire := unlockOne ps.rapidFire score
    shield := unlockOne ps.shield score
    magnet := unlockOne ps.magnet score
    boost := unlockOne ps.boost score }

/-- `slap()` of state.js, as a state transformer on the module state.
The call sequence of the source is kept: `isValidTapRate` filters the tap
window to the last second and rejects (throwing) at ≥ 4 entries
(`MAX_TAPS_PER_SECOND`); the minimum-interval check (`MIN_INTERVAL` =
1000/4 = 250 ms) returns silently; then the window push, counters, combo,
points, the `MAX_SCORE_INCREMENT` (1000) guard, and the state updates. -/
def slap (st : EngineState) (now : Nat) : SlapOutcome × EngineState :=
  let w := st.tapsWindow.filter (fun time => now - time < 1000)
  if 4 ≤ w.length then
    (SlapOutcome.errorTapRate, { st with tapsWindow := w })
  else if now - st.game.lastSlapAt < 250 then
    (SlapOutcome.silentIgnore, { st with tapsWindow := w })
  else
    let w := w ++ [now]
    let g := { st.game with
      totalSlaps := st.game.totalSlaps + 1
      statistics := { st.game.statistics with totalTaps := st.game.statistics.totalTaps + 1 } }
    let newCombo := calculateCombo g now
    let prevScore := g.score
    let points := applyPowerUpEffects st.powerUps ((1 : ℚ) * (newCombo : ℚ))
    if 1000 < points then
      (SlapOutcome.errorInvalidIncrement, { st with game := g, tapsWindow := w })
    else
      let g := { g with
        combo := newCombo
        score := g.score + points
        lastSlapAt := now
        lastComboTick := now }
      let g := { g with
        statistics := { g.statistics with
          highestCombo := max g.statistics.highestCombo newCombo } }
      let hist := trackScoreHistory st.scoreHistory g.score now
      let g := { g with achievements := checkAchievements g.achievements prevScore g.score g.combo }
      let pows := checkPowerUpUnlocks st.powerUps g.score
      (SlapOutcome.accepted points,
        { game := g, powerUps := pows, tapsWindow := w, scoreHistory := hist })

/-- `claimDailyReward()` of state.js (persistence/notification side effects
omitted).  Assumes `lastDailyClaim ≤ now`, as holds for wall-clock use. -/
def claimDailyReward (g : GameState) (now : Nat) : Except String (GameState × ℤ) :=
  let daysSinceLastClaim := (now - g.lastDailyClaim) / 86400000
  if g.dailyClaimed ∧ daysSinceLastClaim < 1 then
    Except.error "Daily reward already claimed today"
  else
    let totalReward : ℤ := 100 + (min daysSinceLastClaim 7 : ℕ) * 20
    Except.ok
      ({ g with
          score := g.score + totalReward
          dailyClaimed := true
          lastDailyClaim := now }, totalReward)

/-! ## Arena server (src/modules/ui.js, embedded server entry)

The authoritative multiplayer world of the WebSocket connection loop:
`players` is a JS object keyed by numeric player id, modelled as a partial
map `Nat → Option Player`.  In-place mutation of `players[id]` becomes a
point update of the map, and every read in the handler reads the current
map (so the aliasing of `players[targetId]` and `players[playerId]` when
`targetId === playerId` is preserved). -/

/-- One entry of the server's `players` record. -/
structure Player where
  id : Nat
  x : ℚ
  y : ℚ
  health : ℤ
  gas : ℤ
  alive : Bool
  score : ℤ
  combo : Nat
  name : Option String
  deriving Repr, DecidableEq

/-- Server→client broadcast events produced by the slap handler. -/
inductive ServerMsg where
  | playerHit (id : Nat) (health : ℤ) (attacker : Nat) (damage : ℤ)
  | playerDied (id : Nat) (killerId : Nat)
  | playerUpdate (id : Nat) (gas : ℤ) (score : ℤ) (combo : Nat)
  deriving Repr, DecidableEq

/-- The server's `players` object: a partial map from numeric id. -/
def World : Type := Nat → Option Player

/-- In-place mutation of `players[i]` (a no-op when the id is absent). -/
def modP (w : World) (i : Nat) (f : Player → Player) : World :=
  fun j => if j = i then (w j).map f else w j

/-- The hit-resolution block of the server's `slap` handler: run after the
attacker's gas/score/combo update, when `data.targetId` resolves to an alive
player within Euclidean distance < 60 of the attacker (`dist < 60` iff
`dx*dx + dy*dy < 3600`).  Returns the updated world and the broadcasts it
issues, in source order: on a kill, `playerDied` is broadcast first and the
unconditional `playerHit` broadcast follows it. -/
def resolveHit (w : World) (aid : Nat) (target : Option Nat) : World × List ServerMsg :=
  match target with
  | none => (w, [])
  | some tid =>
    match w tid, w aid with
    | some tgt, some me =>
      if tgt.alive then
        let dx := tgt.x - me.x
        let dy := tgt.y - me.y
        if dx * dx + dy * dy < 3600 then
          let w := modP w tid (fun p => { p with health := p.health - 25 })
          let w := modP w aid (fun p => { p with score := p.score + 50 * (p.combo : ℤ) })
          match w tid with
          | some t1 =>
            if t1.health ≤ 0 then
              let w := modP w tid (fun p => { p with alive := false })
              let w := modP w aid (fun p => { p with score := p.score + 200 })
              (w, [ServerMsg.playerDied tid aid, ServerMsg.playerHit tid t1.health aid 25])
            else
              (w, [ServerMsg.playerHit tid t1.health aid 25])
          | none => (w, [])
        else (w, [])
      else (w, [])
    | _, _ => (w, [])

/-- The attacker-side mutation of an accepted slap:
`gas -= 20; score += 10; combo = min(combo + 1, 50)`. -/
def slapAttackerUpd (p : Player) : Player :=
  { p with gas := p.gas - 20, score := p.score + 10, combo := min (p.combo + 1) 50 }

/-- The `slap` branch of the server's message handler: reject unless the
attacker is alive with gas ≥ 20; spend 20 gas, add 10 score, bump the combo
(capped at 50); resolve a possible hit on `data.targetId`; always broadcast
the attacker's `playerUpdate` last. -/
def handleSlap (w : World) (aid : Nat) (target : Option Nat) : World × List ServerMsg :=
  match w aid with
  | none => (w, [])
  | some me =>
    if me.alive ∧ 20 ≤ me.gas then
      let res := resolveHit (modP w aid slapAttackerUpd) aid target
      let updMsg :=
        match res.1 aid with
        | some me2 => [ServerMsg.playerUpdate aid me2.gas me2.score me2.combo]
        | none => []
      (res.1, res.2 ++ updMsg)
    else (w, [])

theorem modP_apply_ne (w : World) (i j : Nat) (f : Player → Player) (h : j ≠ i) :
    modP w i f j = w j := by
  simp [modP, h]

theorem modP_apply_self (w : World) (i : Nat) (f : Player → Player) :
    modP w i f i = (w i).map f := by
  simp [modP]

/-- `n` consecutive accepted-or-rejected slap intents from `aid` targeting
`tid`, collecting all broadcasts in order. -/
def runSlaps (w : World) (aid tid : Nat) : Nat → World × List ServerMsg
  | 0 => (w, [])
  | n + 1 =>
    let r1 := handleSlap w aid (some tid)
    let r2 := runSlaps r1.1 aid tid n
    (r2.1, r1.2 ++ r2.2)

/-- The hit-resolution broadcasts (`playerHit` / `playerDied`) of a
broadcast trace, in order. -/
def isHitResolution : ServerMsg → Bool
  | ServerMsg.playerHit _ _ _ _ => true
  | ServerMsg.playerDied _ _ => true
  | ServerMsg.playerUpdate _ _ _ _ => false

/-- In the accepted case the world after `handleSlap` is the world after the
hit resolution run on the attacker-updated world. -/
theorem handleSlap_world_accept (w : World) (aid : Nat) (t : Option Nat) (atk : Player)
    (ha : w aid = some atk) (halive : atk.alive = true) (hgas : 20 ≤ atk.gas) :
    (handleSlap w aid t).1 = (resolveHit (modP w aid slapAttackerUpd) aid t).1 := by
  unfold handleSlap
  simp only [ha]
  rw [if_pos ⟨halive, hgas⟩]

/-- Complete description of the target's record after hit resolution against
a distinct attacker: a dead or out-of-range target is untouched; an alive
in-range target loses 25 health, and `alive` is cleared exactly when the
resulting health is ≤ 0. -/
theorem resolveHit_target_state (w : World) (aid tid : Nat) (me tgt : Player)
    (hne : tid ≠ aid) (ha : w aid = some me) (ht : w tid = some tgt) :
    (resolveHit w aid (some tid)).1 tid =
      if tgt.alive = true ∧
          (tgt.x - me.x) * (tgt.x - me.x) + (tgt.y - me.y) * (tgt.y - me.y) < 3600 then
        if tgt.health - 25 ≤ 0 then
          some { tgt with health := tgt.health - 25, alive := false }
        else
          some { tgt with health := tgt.health - 25 }
      else some tgt := by
  unfold resolveHit
  dsimp only
  simp only [ht, ha]
  by_cases hal : tgt.alive
  · simp only [hal, if_true, true_and]
    by_cases hd : (tgt.x - me.x) * (tgt.x - me.x) + (tgt.y - me.y) * (tgt.y - me.y) < 3600
    · simp only [hd, if_true]
      rw [modP_apply_ne _ _ _ _ hne, modP_apply_self, ht]
      simp only [Option.map_some']
      by_cases hh : tgt.health - 25 ≤ 0
      · simp only [hh, if_true]
        rw [modP_apply_ne _ _ _ _ hne, modP_apply_self,
          modP_apply_ne _ _ _ _ hne, modP_apply_self, ht]
        simp [hal]
      · simp only [hh, if_false]
        rw [modP_apply_ne _ _ _ _ hne, modP_apply_self, ht]
        simp [hal]
    · simp only [hd, if_false]
      exact ht
  · have hal' : tgt.alive = false := by simpa using hal
    simp only [hal', Bool.false_eq_true, if_false, false_and]
    exact ht

/-- Complete description of the target's record after a slap from a distinct,
alive attacker with enough gas. -/
theorem handleSlap_target_state (w : World) (aid tid : Nat) (atk tgt : Player)
    (hne : tid ≠ aid) (ha : w aid = some atk) (ht : w tid = some tgt)
    (halive : atk.alive = true) (hgas : 20 ≤ atk.gas) :
    (handleSlap w aid (some tid)).1 tid =
      if tgt.alive = true ∧
          (tgt.x - atk.x) * (tgt.x - atk.x) + (tgt.y - atk.y) * (tgt.y - atk.y) < 3600 then
        if tgt.health - 25 ≤ 0 then
          some { tgt with health := tgt.health - 25, alive := false }
        else
          some { tgt with health := tgt.health - 25 }
      else some tgt := by
  rw [handleSlap_world_accept w aid (some tid) atk ha halive hgas]
  have ha1 : (modP w aid slapAttackerUpd) aid = some (slapAttackerUpd atk) := by
    rw [modP_apply_self, ha]; rfl
  have ht1 : (modP w aid slapAttackerUpd) tid = some tgt := by
    rw [modP_apply_ne _ _ _ _ hne]; exact ht
  rw [resolveHit_target_state _ aid tid (slapAttackerUpd atk) tgt hne ha1 ht1]
  rfl

/-- C4: an accepted slap at distance ≥ 60 (`dist² ≥ 3600`) leaves the
target's health unchanged; in range against an alive target it removes
exactly 25 health and clears `alive` exactly when the result is ≤ 0; a slap
against an already-dead target changes nothing about the target. -/
theorem arena_slap_health_and_death (w : World) (aid tid : Nat) (atk tgt : Player)
    (hne : tid ≠ aid) (ha : w aid = some atk) (ht : w tid = some tgt)
    (halive : atk.alive = true) (hgas : 20 ≤ atk.gas) :
    (3600 ≤ (tgt.x - atk.x) * (tgt.x - atk.x) + (tgt.y - atk.y) * (tgt.y - atk.y) →
      ((handleSlap w aid (some tid)).1 tid).map Player.health = some tgt.health) ∧
    (tgt.alive = true →
      (tgt.x - atk.x) * (tgt.x - atk.x) + (tgt.y - atk.y) * (tgt.y - atk.y) < 3600 →
      ((handleSlap w aid (some tid)).1 tid).map Player.health = some (tgt.health - 25) ∧
      (tgt.health - 25 ≤ 0 →
        ((handleSlap w aid (some tid)).1 tid).map Player.alive = some false) ∧
      (0 < tgt.health - 25 →
        ((handleSlap w aid (some tid)).1 tid).map Player.alive = some true)) ∧
    (tgt.alive = false → (handleSlap w aid (some tid)).1 tid = some tgt) := by
  rw [handleSlap_target_state w aid tid atk tgt hne ha ht halive hgas]
  refine ⟨?_, ?_, ?_⟩
  · intro hfar
    rw [if_neg (by rintro ⟨-, hlt⟩; exact absurd hlt (not_lt.mpr hfar))]
    rfl
  · intro htal hd
    rw [if_pos ⟨htal, hd⟩]
    by_cases hh : tgt.health - 25 ≤ 0
    · rw [if_pos hh]
      exact ⟨rfl, fun _ => rfl, fun hpos => absurd hh (by omega)⟩
    · rw [if_neg hh]
      exact ⟨rfl, fun hle => absurd hle hh, fun _ => by simp [htal]⟩
  · intro htal
    rw [if_neg (by rintro ⟨h1, -⟩; rw [htal] at h1; cases h1)]

/-- The two-player scenario of the spec's Scenario B: attacker (id 1) and
target (id 2) 10 units apart (well inside melee range), both alive at full
health and gas. -/
def arenaAttacker : Player :=
  { id := 1, x := 100, y := 100, health := 100, gas := 100,
    alive := true, score := 0, combo := 1, name := none }

def arenaTarget : Player :=
  { id := 2, x := 110, y := 100, health := 100, gas := 100,
    alive := true, score := 0, combo := 1, name := none }

def arenaWorld : World := fun i =>
  if i = 1 then some arenaAttacker else if i = 2 then some arenaTarget else none

/-- C1 counterexample: in the two-player scenario (attacker and target 10
units apart, target at full health 100), after three accepted slaps the
target has health 100 − 3·25 = 25 and is still alive, and the three hit
resolutions are all `playerHit` — no `playerDied` occurs, contrary to the
claimed `playerHit, playerHit, playerDied` sequence. -/
theorem arena_three_slaps_target_survives :
    ((runSlaps arenaWorld 1 2 3).1 2).map Player.alive = some true ∧
    ((runSlaps arenaWorld 1 2 3).1 2).map Player.health = some 25 ∧
    (runSlaps arenaWorld 1 2 3).2.filter isHitResolution =
      [ServerMsg.playerHit 2 75 1 25, ServerMsg.playerHit 2 50 1 25,
       ServerMsg.playerHit 2 25 1 25] := by
  refine ⟨?_, ?_, ?_⟩ <;>
  norm_num [runSlaps, handleSlap, resolveHit, modP, slapAttackerUpd, arenaWorld,
    arenaAttacker, arenaTarget, isHitResolution, List.filter]

/-- C1 (amended): the target dies on the fourth slap, not the third
(100 − 3·25 = 25 > 0), and on the lethal slap the server broadcasts
`playerDied` first and then the unconditional `playerHit` (with health 0) —
so the hit-resolution broadcast sequence over the four slaps is
`playerHit, playerHit, playerHit, playerDied, playerHit`. -/
theorem arena_four_slaps_kill_broadcasts :
    ((runSlaps arenaWorld 1 2 4).1 2).map Player.alive = some false ∧
    (runSlaps arenaWorld 1 2 4).2.filter isHitResolution =
      [ServerMsg.playerHit 2 75 1 25, ServerMsg.playerHit 2 50 1 25,
       ServerMsg.playerHit 2 25 1 25, ServerMsg.playerDied 2 1,
       ServerMsg.playerHit 2 0 1 25] := by
  constructor <;>
  norm_num [runSlaps, handleSlap, resolveHit, modP, slapAttackerUpd, arenaWorld,
    arenaAttacker, arenaTarget, isHitResolution, List.filter]

/-- Witness for `arena_slap_health_and_death` at the concrete two-player
world: one in-range slap takes the target from health 100 to 75 and leaves
it alive. -/
theorem arena_slap_health_and_death_witness :
    ((handleSlap arenaWorld 1 (some 2)).1 2).map Player.health = some 75 ∧
    ((handleSlap arenaWorld 1 (some 2)).1 2).map Player.alive = some true := by
  have h := arena_slap_health_and_death arenaWorld 1 2 arenaAttacker arenaTarget
    (by decide) rfl rfl rfl (by decide)
  have h2 := h.2.1 rfl (by norm_num [arenaAttacker, arenaTarget])
  refine ⟨?_, h2.2.2 (by decide)⟩
  have := h2.1
  simpa [arenaTarget] using this

/-! ### Engine theorems (claims about state.js) -/

/-- The initial `statistics` object of state.js. -/
def baseStatistics : Statistics :=
  { totalPlayTime := 0, highestCombo := 0, totalTaps := 0, sessionsPlayed := 1 }

/-- The initial `gameState` object of state.js. -/
def baseGame : GameState :=
  { score := 0, combo := 1, lastSlapAt := 0, lastComboTick := 0, totalSlaps := 0,
    dailyClaimed := false, lastDailyClaim := 0, achievements := [],
    statistics := baseStatistics }

/-- The initial `powerUpsState` object of state.js (all locked, inactive). -/
def basePowerUps : PowerUpsState :=
  { doublePoints :=
      { unlocked := false, active := false, cooldown := 0, duration := 0, unlockThreshold := 500 }
    rapidFire :=
      { unlocked := false, active := false, cooldown := 0, duration := 0, unlockThreshold := 1000 }
    shield :=
      { unlocked := false, active := false, cooldown := 0, duration := 0, unlockThreshold := 2000 }
    magnet :=
      { unlocked := false, active := false, cooldown := 0, duration := 0, unlockThreshold := 5000 }
    boost :=
      { unlocked := false, active := false, cooldown := 0, duration := 0, unlockThreshold := 10000 } }

/-- Fresh engine state: empty tap window, no history. -/
def engineStateBase : EngineState :=
  { game := baseGame, powerUps := basePowerUps, tapsWindow := [], scoreHistory := [] }

/-- Engine state whose 1-second tap window is already full: four accepted
taps at 100, 150, 200 and 250 ms, observed at `now = 300`. -/
def engineStateRateLimited : EngineState :=
  { engineStateBase with tapsWindow := [100, 150, 200, 250] }

/-- Engine state in the middle of a combo: combo 7, last accepted tap at
1000 ms. -/
def engineStateCombo : EngineState :=
  { engineStateBase with
    game := { baseGame with combo := 7, lastSlapAt := 1000, lastComboTick := 1000 } }

/-- C2 counterexample: with four accepted-tap timestamps inside the sliding
1-second window, `slap` at `now = 300` raises the `'Tap rate too high'`
error — it does not return silently. -/
theorem slap_rate_limit_throws_counterexample :
    (slap engineStateRateLimited 300).1 = SlapOutcome.errorTapRate ∧
    (slap engineStateRateLimited 300).1 ≠ SlapOutcome.silentIgnore := by
  constructor <;> decide

/-- C2 (amended): a slap whose filtered 1-second window already holds ≥ 4
entries is rejected by raising the `'Tap rate too high'` error; no points
are awarded and the whole of `gameState` (and the power-up state and score
history) is left unchanged. -/
theorem slap_rate_limited_raises (st : EngineState) (now : Nat)
    (h : 4 ≤ (st.tapsWindow.filter (fun time => now - time < 1000)).length) :
    (slap st now).1 = SlapOutcome.errorTapRate ∧
    (slap st now).2.game = st.game ∧
    (slap st now).2.powerUps = st.powerUps ∧
    (slap st now).2.scoreHistory = st.scoreHistory := by
  unfold slap
  dsimp only
  rw [if_pos h]
  exact ⟨rfl, rfl, rfl, rfl⟩

/-- Witness for `slap_rate_limited_raises` at the concrete rate-limited
engine state. -/
theorem slap_rate_limited_raises_witness :
    (slap engineStateRateLimited 300).2.game = engineStateRateLimited.game ∧
    (slap engineStateRateLimited 300).2.powerUps = engineStateRateLimited.powerUps := by
  have h := slap_rate_limited_raises engineStateRateLimited 300 (by decide)
  exact ⟨h.2.1, h.2.2.1⟩

/-- C10: both rejection paths of `slap` — the rate-limit error and the
silent minimum-interval return — leave `gameState` (so score, combo,
`lastSlapAt`, `lastComboTick`, `totalSlaps`, achievements, statistics),
the power-up state and the score history untouched. -/
theorem slap_rejections_atomic (st : EngineState) (now : Nat)
    (h : (slap st now).1 = SlapOutcome.errorTapRate ∨
         (slap st now).1 = SlapOutcome.silentIgnore) :
    (slap st now).2.game = st.game ∧
    (slap st now).2.powerUps = st.powerUps ∧
    (slap st now).2.scoreHistory = st.scoreHistory := by
  unfold slap at h ⊢
  dsimp only at h ⊢
  split_ifs at h ⊢
  · exact ⟨rfl, rfl, rfl⟩
  · exact ⟨rfl, rfl, rfl⟩
  · simp at h
  · simp at h

/-- Witness for `slap_rejections_atomic`: a tap 100 ms after the previous
one (below the 250 ms minimum interval) is silently ignored and changes
nothing. -/
theorem slap_rejections_atomic_witness :
    (slap engineStateCombo 1100).2.game = engineStateCombo.game ∧
    (slap engineStateCombo 1100).2.powerUps = engineStateCombo.powerUps := by
  have h := slap_rejections_atomic engineStateCombo 1100 (Or.inr (by decide))
  exact ⟨h.1, h.2.1⟩

/-- C3: on every accepted slap the new combo is exactly 1 when the gap since
the last accepted tap (`lastComboTick`, set to `now` on every acceptance) is
≥ 1200 ms, and exactly `min(previous combo + 1, 50)` when the gap is
< 1200 ms; and `claimDailyReward`, the only other engine operation that
mutates `gameState`, never changes the combo. -/
theorem slap_combo_formula :
    (∀ (st : EngineState) (now : Nat),
      (∃ points, (slap st now).1 = SlapOutcome.accepted points) →
      ((1200 ≤ now - st.game.lastComboTick → (slap st now).2.game.combo = 1) ∧
       (now - st.game.lastComboTick < 1200 →
         (slap st now).2.game.combo = min (st.game.combo + 1) 50))) ∧
    (∀ (g : GameState) (now : Nat) (g' : GameState) (r : ℤ),
      claimDailyReward g now = Except.ok (g', r) → g'.combo = g.combo) := by
  constructor
  · intro st now hacc
    unfold slap at hacc ⊢
    dsimp only at hacc ⊢
    split_ifs at hacc ⊢ with h1 h2 h3
    · obtain ⟨p, hp⟩ := hacc; simp at hp
    · obtain ⟨p, hp⟩ := hacc; simp at hp
    · obtain ⟨p, hp⟩ := hacc; simp at hp
    · constructor
      · intro hge
        unfold calculateCombo
        dsimp only
        rw [if_neg (by omega)]
      · intro hlt
        unfold calculateCombo
        dsimp only
        rw [if_pos (by omega)]
  · intro g now g' r heq
    unfold claimDailyReward at heq
    dsimp only at heq
    split_ifs at heq
    cases heq
    rfl

/-- The game state produced by a first daily claim at `now = 86400000`
(one day): base reward 100 plus one day of streak bonus. -/
def dailyClaimedGame : GameState :=
  { baseGame with score := 120, dailyClaimed := true, lastDailyClaim := 86400000 }

/-- Witness for `slap_combo_formula`: a slap after a 1600 ms gap resets the
combo to 1; a slap 1100 ms into a combo of 7 advances it to 8; a daily claim
leaves the combo of the fresh state at 1. -/
theorem slap_combo_formula_witness :
    (slap engineStateBase 1600).2.game.combo = 1 ∧
    (slap engineStateCombo 2100).2.game.combo =
      min (engineStateCombo.game.combo + 1) 50 ∧
    dailyClaimedGame.combo = baseGame.combo := by
  refine ⟨?_, ?_, ?_⟩
  · exact (slap_combo_formula.1 engineStateBase 1600
      ⟨1, by norm_num [slap, engineStateBase, baseGame, basePowerUps, calculateCombo,
        applyPowerUpEffects]⟩).1 (by decide)
  · exact (slap_combo_formula.1 engineStateCombo 2100
      ⟨8, by norm_num [slap, engineStateCombo, engineStateBase, baseGame, basePowerUps,
        calculateCombo, applyPowerUpEffects]⟩).2 (by decide)
  · exact slap_combo_formula.2 baseGame 86400000 dailyClaimedGame 120 (by rfl)

/-- The power-up multipliers (×2 doublePoints, ×1.5 rapidFire, ×3 boost)
applied to a base of at most 50 yield at most `⌊50·9⌋ = 450` points. -/
theorem floor_le_of_le_fourFifty (p : ℚ) (hp : p ≤ ((450 : ℤ) : ℚ)) :
    Int.floor p ≤ 450 := by
  have h := Int.floor_mono hp
  rwa [Int.floor_intCast] at h

theorem applyPowerUpEffects_le (pows : PowerUpsState) (c : ℚ)
    (_hc0 : 0 ≤ c) (hc50 : c ≤ 50) : applyPowerUpEffects pows c ≤ 450 := by
  unfold applyPowerUpEffects
  dsimp only
  split_ifs <;>
  · exact floor_le_of_le_fourFifty _ (by push_cast; nlinarith)

/-- C5: the per-slap points are `⌊1 × combo × modifiers⌋` with the combo
capped at 50, hence at most 450 < 1000, so the `'Invalid score increment'`
branch (`MAX_SCORE_INCREMENT`) is unreachable: no call to `slap` ever
returns that error. -/
theorem slap_invalid_increment_unreachable :
    (∀ (pows : PowerUpsState) (c : ℚ), 0 ≤ c → c ≤ 50 →
      applyPowerUpEffects pows c ≤ 450) ∧
    (∀ (st : EngineState) (now : Nat),
      (slap st now).1 ≠ SlapOutcome.errorInvalidIncrement) := by
  refine ⟨applyPowerUpEffects_le, ?_⟩
  intro st now
  unfold slap
  dsimp only
  split_ifs with h1 h2 h3
  · simp
  · simp
  · exfalso
    set g : GameState := { st.game with
      totalSlaps := st.game.totalSlaps + 1
      statistics := { st.game.statistics with
        totalTaps := st.game.statistics.totalTaps + 1 } } with hg
    have hc : calculateCombo g now ≤ 50 := by
      unfold calculateCombo
      split_ifs
      · omega
      · omega
    have hb := applyPowerUpEffects_le st.powerUps ((1 : ℚ) * (calculateCombo g now : ℚ))
      (by positivity)
      (by rw [one_mul]; exact_mod_cast hc)
    omega
  · simp

/-- Witness for `slap_invalid_increment_unreachable`: the bound at the
maximal combo of 50 with no active power-ups, and a concrete slap. -/
theorem slap_invalid_increment_unreachable_witness :
    applyPowerUpEffects basePowerUps 50 ≤ 450 ∧
    (slap engineStateBase 1600).1 ≠ SlapOutcome.errorInvalidIncrement := by
  exact ⟨slap_invalid_increment_unreachable.1 basePowerUps 50 (by norm_num) (le_refl _),
    slap_invalid_increment_unreachable.2 engineStateBase 1600⟩

/-! ## Offline sync queue (src/modules/persistence.js) -/

/-- JS `v || d` for an optional number field (`0` and `undefined` are falsy). -/
def jsOrNat (v : Option Nat) (d : Nat) : Nat :=
  match v with
  | some n => if n = 0 then d else n
  | none => d

/-- JS `v || d` for an optional string field (`''` and `undefined` are falsy). -/
def jsOrStr (v : Option String) (d : String) : String :=
  match v with
  | some s => if s = "" then d else s
  | none => d

/-- A sanitized item of the `syncQueue` array of persistence.js, with payload
type `α` (the payload is opaque to the queue). -/
structure SyncQueueItem (α : Type) where
  id : String
  type : String
  data : α
  timestamp : Nat
  attempts : Nat
  maxAttempts : Nat
  priority : String
  retries : Nat
  lastError : Option String
  deriving Repr, DecidableEq

/-- The raw argument object of `enqueueSync(item)`: each field the caller may
omit (or pass a falsy value for) is an `Option`. -/
structure SyncRequest (α : Type) where
  type : Option String
  data : α
  maxAttempts : Option Nat
  priority : Option String
  retries : Option Nat
  deriving Repr, DecidableEq

/-- `priorityOrder[p] || 2` of the `enqueueSync` sort comparator:
high ↦ 3, normal ↦ 2, low ↦ 1, anything else ↦ 2. -/
def priorityRank (p : String) : Nat :=
  if p = "high" then 3 else if p = "normal" then 2 else if p = "low" then 1 else 2

/-- The total preorder realised by the `enqueueSync` sort comparator
(priority-major descending rank, timestamp-minor ascending):
`syncLe a b` iff the comparator puts `a` no later than `b`. -/
def syncLe {α : Type} (a b : SyncQueueItem α) : Prop :=
  priorityRank b.priority < priorityRank a.priority ∨
    (priorityRank a.priority = priorityRank b.priority ∧ a.timestamp ≤ b.timestamp)

instance {α : Type} : DecidableRel (@syncLe α) := fun a b => by
  unfold syncLe; infer_instance

instance {α : Type} : IsTotal (SyncQueueItem α) syncLe where
  total a b := by unfold syncLe; omega

instance {α : Type} : IsTrans (SyncQueueItem α) syncLe where
  trans a b c hab hbc := by unfold syncLe at *; omega

/-- `enqueueSync(item)` of persistence.js: build the sanitized item
(`attempts := 0`, `maxAttempts := item.maxAttempts || 5`,
`priority := item.priority || 'normal'`, `retries := item.retries || 0`),
push it, stable-sort the queue priority-major/timestamp-minor, and cut the
queue back to 1000 entries (`slice(0, 1000)`) when it exceeds the cap.
`genId` models `generateSyncId()` and `sanitize` models `sanitizeInput`. -/
def mkSyncItem {α : Type} (sanitize : String → String) (genId : String) (now : Nat)
    (item : SyncRequest α) : SyncQueueItem α :=
  { id := genId
    type := sanitize (jsOrStr item.type "unknown")
    data := item.data
    timestamp := now
    attempts := 0
    maxAttempts := jsOrNat item.maxAttempts 5
    priority := jsOrStr item.priority "normal"
    retries := jsOrNat item.retries 0
    lastError := none }

def enqueueSync {α : Type} (sanitize : String → String) (queue : List (SyncQueueItem α))
    (genId : String) (now : Nat) (item : SyncRequest α) : List (SyncQueueItem α) :=
  let q := queue ++ [mkSyncItem sanitize genId now item]
  let q := List.insertionSort syncLe q
  if 1000 < q.length then q.take 1000 else q

/-- `dequeueSync(item)` of persistence.js: `findIndex` by id + `splice(i, 1)`
removes the first entry with the given id, if any. -/
def removeFirstById {α : Type} : List (SyncQueueItem α) → String → List (SyncQueueItem α)
  | [], _ => []
  | x :: xs, i => if x.id = i then xs else x :: removeFirstById xs i

/-- In-place mutation of the first queue entry with the given id (JS object
mutation of an item held by reference). -/
def updateFirstById {α : Type} :
    List (SyncQueueItem α) → String → (SyncQueueItem α → SyncQueueItem α) →
    List (SyncQueueItem α)
  | [], _, _ => []
  | x :: xs, i, f => if x.id = i then f x :: xs else x :: updateFirstById xs i f

/-- One iteration of the `results.forEach` loop of `processSyncBatch`:
on success (`fulfilled` with a truthy value) the item is dequeued; on failure
`attempts` is incremented on the shared item object and, once
`attempts >= maxAttempts`, the item is evicted from the queue. -/
def processBatchStep {α : Type} (queue : List (SyncQueueItem α)) (itemId : String)
    (success : Bool) : List (SyncQueueItem α) :=
  if success then removeFirstById queue itemId
  else
    match queue.find? (fun q => q.id = itemId) with
    | none => queue
    | some it =>
      let queue := updateFirstById queue itemId
        (fun q => { q with attempts := q.attempts + 1, lastError := some "Unknown error" })
      if it.maxAttempts ≤ it.attempts + 1 then removeFirstById queue itemId else queue

/-- `processSyncBatch(batch)` of persistence.js over the settled outcomes of
the batch (item id paired with success/failure). -/
def processSyncBatch {α : Type} (queue : List (SyncQueueItem α))
    (outcomes : List (String × Bool)) : List (SyncQueueItem α) :=
  outcomes.foldl (fun q o => processBatchStep q o.1 o.2) queue

/-- The selection filter of `processSyncQueue` of persistence.js: an item is
ready when `attempts < maxAttempts` and
`now - timestamp > attempts * SYNC_RETRY_DELAY` (30000 ms). -/
def itemsReadyForSync {α : Type} (queue : List (SyncQueueItem α)) (now : Nat) :
    List (SyncQueueItem α) :=
  queue.filter (fun it =>
    decide (it.attempts < it.maxAttempts) && decide (it.attempts * 30000 < now - it.timestamp))

/-! ### Sync queue theorems (claims C7, C8) -/

theorem find?_id_eq_of_nodup_mem {α : Type} (queue : List (SyncQueueItem α))
    (it : SyncQueueItem α) (hnodup : (queue.map (fun q => q.id)).Nodup)
    (hmem : it ∈ queue) :
    queue.find? (fun q => q.id = it.id) = some it := by
  induction queue with
  | nil => cases hmem
  | cons x xs ih =>
    simp only [List.map_cons, List.nodup_cons] at hnodup
    rcases List.mem_cons.mp hmem with rfl | hmem'
    · simp [List.find?]
    · have hne : x.id ≠ it.id := fun h =>
        hnodup.1 (h ▸ List.mem_map_of_mem (fun q => q.id) hmem')
      rw [List.find?_cons_of_neg _ (by simp [hne])]
      exact ih hnodup.2 hmem'

theorem removeFirstById_id_ne {α : Type} (queue : List (SyncQueueItem α)) (i : String)
    (hnodup : (queue.map (fun q => q.id)).Nodup) :
    ∀ q ∈ removeFirstById queue i, q.id ≠ i := by
  induction queue with
  | nil => intro q hq; cases hq
  | cons x xs ih =>
    simp only [List.map_cons, List.nodup_cons] at hnodup
    intro q hq
    unfold removeFirstById at hq
    split_ifs at hq with hx
    · intro h
      exact hnodup.1 (hx ▸ h ▸ List.mem_map_of_mem (fun q => q.id) hq)
    · rcases List.mem_cons.mp hq with rfl | hq'
      · exact hx
      · exact ih hnodup.2 q hq'

theorem map_id_updateFirstById {α : Type} (queue : List (SyncQueueItem α)) (i : String)
    (f : SyncQueueItem α → SyncQueueItem α) (hf : ∀ q, (f q).id = q.id) :
    (updateFirstById queue i f).map (fun q => q.id) = queue.map (fun q => q.id) := by
  induction queue with
  | nil => rfl
  | cons x xs ih =>
    unfold updateFirstById
    split_ifs
    · simp [hf]
    · simp [ih]

/-- C7: a queue item (under the generated-id uniqueness invariant) that
succeeds is removed from the queue by that very batch step; one that fails
with its attempt counter standing at `maxAttempts − 1` (so the failure is
its `maxAttempts`-th attempt) is evicted by the same step, and no entry
with its id is ever selected for processing again by the
`processSyncQueue` readiness filter. -/
theorem sync_queue_eviction {α : Type} (queue : List (SyncQueueItem α))
    (it : SyncQueueItem α) (hnodup : (queue.map (fun q => q.id)).Nodup)
    (hmem : it ∈ queue) :
    ((processBatchStep queue it.id true).all (fun q => q.id != it.id) = true) ∧
    (it.maxAttempts ≤ it.attempts + 1 →
      ((processBatchStep queue it.id false).all (fun q => q.id != it.id) = true) ∧
      (∀ now, (itemsReadyForSync (processBatchStep queue it.id false) now).all
        (fun q => q.id != it.id) = true)) := by
  have hstep_true : processBatchStep queue it.id true = removeFirstById queue it.id := by
    unfold processBatchStep; simp
  constructor
  · rw [List.all_eq_true]
    intro q hq
    rw [hstep_true] at hq
    simpa using removeFirstById_id_ne queue it.id hnodup q hq
  · intro hmax
    have hupd : (processBatchStep queue it.id false).all (fun q => q.id != it.id) = true := by
      have hstep : processBatchStep queue it.id false =
          removeFirstById (updateFirstById queue it.id
            (fun q =>
              { q with attempts := q.attempts + 1, lastError := some "Unknown error" }))
            it.id := by
        unfold processBatchStep
        rw [if_neg (by simp), find?_id_eq_of_nodup_mem queue it hnodup hmem]
        dsimp only
        rw [if_pos hmax]
      rw [List.all_eq_true]
      intro q hq
      rw [hstep] at hq
      have hnodup2 : (List.map (fun q => q.id) (updateFirstById queue it.id
          (fun q =>
            { q with attempts := q.attempts + 1,
                     lastError := some "Unknown error" }))).Nodup := by
        rw [map_id_updateFirstById queue it.id
          (fun q =>
            { q with attempts := q.attempts + 1, lastError := some "Unknown error" })
          (fun q => rfl)]
        exact hnodup
      simpa using removeFirstById_id_ne _ it.id hnodup2 q hq
    refine ⟨hupd, ?_⟩
    intro now
    rw [List.all_eq_true] at hupd ⊢
    intro q hq
    exact hupd q (List.mem_of_mem_filter hq)

/-- A one-item queue whose item has two of three attempts spent. -/
def spentSyncItem : SyncQueueItem Unit :=
  { id := "sync_a", type := "leaderboard_update", data := (), timestamp := 0,
    attempts := 2, maxAttempts := 3, priority := "normal", retries := 0,
    lastError := none }

/-- Witness for `sync_queue_eviction` on the one-item queue: after a success,
after the terminal third failure, and in any later readiness selection, no
entry with the item's id remains. -/
theorem sync_queue_eviction_witness :
    (processBatchStep [spentSyncItem] spentSyncItem.id true).all
      (fun q => q.id != spentSyncItem.id) = true ∧
    (processBatchStep [spentSyncItem] spentSyncItem.id false).all
      (fun q => q.id != spentSyncItem.id) = true ∧
    (itemsReadyForSync (processBatchStep [spentSyncItem] spentSyncItem.id false) 100000).all
      (fun q => q.id != spentSyncItem.id) = true := by
  have h := sync_queue_eviction [spentSyncItem] spentSyncItem (by decide)
    (List.mem_singleton.mpr rfl)
  exact ⟨h.1, (h.2 (by decide)).1, (h.2 (by decide)).2 100000⟩

/-- C8 (amended): every enqueue keeps the queue within the 1000-item cap and
priority-major/timestamp-minor sorted, and the result is exactly the first
1000 entries of the sorted extended queue — so what `slice(0, 1000)` drops
is the *tail* of that order (the lowest-priority, most recent entries,
possibly the newly enqueued one), not the oldest entries. -/
theorem enqueueSync_cap_and_order {α : Type} (sanitize : String → String)
    (queue : List (SyncQueueItem α)) (genId : String) (now : Nat)
    (item : SyncRequest α) :
    (enqueueSync sanitize queue genId now item).length ≤ 1000 ∧
    List.Sorted syncLe (enqueueSync sanitize queue genId now item) ∧
    enqueueSync sanitize queue genId now item =
      (List.insertionSort syncLe
        (queue ++ [mkSyncItem sanitize genId now item])).take 1000 := by
  unfold enqueueSync
  dsimp only
  by_cases h :
      1000 < (List.insertionSort syncLe (queue ++ [mkSyncItem sanitize genId now item])).length
  · rw [if_pos h]
    refine ⟨?_, ?_, rfl⟩
    · simp
    · exact (List.sorted_insertionSort syncLe _).sublist (List.take_sublist _ _)
  · rw [if_neg h]
    exact ⟨by omega, List.sorted_insertionSort syncLe _,
      (List.take_of_length_le (by omega)).symm⟩

/-- The `i`-th item of a full queue of 1000 normal-priority items with
strictly increasing timestamps `0, …, 999`. -/
def bulkSyncItem (i : Nat) : SyncQueueItem Unit :=
  { id := "bulk_" ++ toString i, type := "user_progress", data := (), timestamp := i,
    attempts := 0, maxAttempts := 5, priority := "normal", retries := 0,
    lastError := none }

/-- A sync queue at the 1000-item size cap. -/
def fullSyncQueue : List (SyncQueueItem Unit) := (List.range 1000).map bulkSyncItem

/-- The request enqueued on top of the full queue (normal priority, at
timestamp 1000, strictly newer than everything in the queue). -/
def overflowRequest : SyncRequest Unit :=
  { type := some "user_progress", data := (), maxAttempts := none,
    priority := some "normal", retries := none }

theorem fullSyncQueue_sorted_extended :
    List.Sorted syncLe
      (fullSyncQueue ++ [mkSyncItem (fun s => s) "bulk_new" 1000 overflowRequest]) := by
  rw [List.Sorted, List.pairwise_append]
  refine ⟨?_, List.pairwise_singleton _ _, ?_⟩
  · unfold fullSyncQueue
    rw [List.pairwise_map]
    refine (List.pairwise_lt_range 1000).imp ?_
    intro i j hij
    exact Or.inr ⟨rfl, Nat.le_of_lt hij⟩
  · intro a ha b hb
    rw [List.mem_singleton] at hb
    subst hb
    obtain ⟨i, hi, rfl⟩ := List.mem_map.mp ha
    rw [List.mem_range] at hi
    unfold syncLe
    refine Or.inr ⟨rfl, ?_⟩
    simpa [bulkSyncItem, mkSyncItem] using Nat.le_of_lt hi

/-- C8 counterexample: enqueuing a normal-priority item with the newest
timestamp onto a full (1000-item, same-priority, timestamps 0…999) queue
returns the queue unchanged — the enqueue drops the *newly enqueued, newest*
item, while the oldest item (timestamp 0) is retained.  So the cap is not
maintained by "dropping the oldest item(s)". -/
theorem enqueueSync_drops_newest_counterexample :
    enqueueSync (fun s => s) fullSyncQueue "bulk_new" 1000 overflowRequest =
      fullSyncQueue ∧
    bulkSyncItem 0 ∈ fullSyncQueue ∧
    mkSyncItem (fun s => s) "bulk_new" 1000 overflowRequest ∉
      enqueueSync (fun s => s) fullSyncQueue "bulk_new" 1000 overflowRequest := by
  have hlen : fullSyncQueue.length = 1000 := by simp [fullSyncQueue]
  have hsort := (fullSyncQueue_sorted_extended).insertionSort_eq
  have hres : enqueueSync (fun s => s) fullSyncQueue "bulk_new" 1000 overflowRequest =
      fullSyncQueue := by
    unfold enqueueSync
    dsimp only
    rw [hsort, if_pos (by simp [hlen]), ← hlen, List.take_left]
  refine ⟨hres, List.mem_map.mpr ⟨0, List.mem_range.mpr (by omega), rfl⟩, ?_⟩
  rw [hres]
  intro hmem
  obtain ⟨i, hi, heq⟩ := List.mem_map.mp hmem
  rw [List.mem_range] at hi
  have := congrArg (fun q => SyncQueueItem.timestamp q) heq
  simp [bulkSyncItem, mkSyncItem, overflowRequest] at this
  omega

/-! ## Leaderboard (src/client/modules/leaderboard-api.js) -/

/-- One leaderboard entry (id, display name, score, timestamp, session). -/
structure LeaderboardEntry where
  id : String
  name : String
  score : ℤ
  timestamp : Nat
  session : String
  deriving Repr, DecidableEq

/-- The total preorder realised by the leaderboard sort comparator
`(a, b) => b.score - a.score` (descending score):
`scoreDesc a b` iff the comparator puts `a` no later than `b`. -/
def scoreDesc (a b : LeaderboardEntry) : Prop := b.score ≤ a.score

instance : DecidableRel scoreDesc := fun a b => by unfold scoreDesc; infer_instance

instance : IsTotal LeaderboardEntry scoreDesc where
  total a b := by unfold scoreDesc; omega

instance : IsTrans LeaderboardEntry scoreDesc where
  trans a b c hab hbc := by unfold scoreDesc at *; omega

/-- A JS `Map` in insertion order: `set` on an existing key replaces the
value in place, `set` on a fresh key appends. -/
def mapSet (m : List (String × LeaderboardEntry)) (k : String) (v : LeaderboardEntry) :
    List (String × LeaderboardEntry) :=
  if m.any (fun p => p.1 = k) then m.map (fun p => if p.1 = k then (k, v) else p)
  else m ++ [(k, v)]

/-- `Map.get` on the insertion-ordered map. -/
def mapGet (m : List (String × LeaderboardEntry)) (k : String) : Option LeaderboardEntry :=
  (m.find? (fun p => p.1 = k)).map (fun p => p.2)

/-- The replacement test of the `mergeLeaderboards` secondary loop:
`entry.score > existing.score || (entry.score === existing.score &&
entry.timestamp > existing.timestamp)`. -/
def beats (e existing : LeaderboardEntry) : Prop :=
  existing.score < e.score ∨ (e.score = existing.score ∧ existing.timestamp < e.timestamp)

instance (e existing : LeaderboardEntry) : Decidable (beats e existing) := by
  unfold beats; infer_instance

/-- One step of the secondary loop of `mergeLeaderboards`. -/
def upsertSecondary (acc : List (String × LeaderboardEntry)) (e : LeaderboardEntry) :
    List (String × LeaderboardEntry) :=
  match mapGet acc e.id with
  | none => mapSet acc e.id e
  | some existing => if beats e existing then mapSet acc e.id e else acc

/-- The `merged` map of `mergeLeaderboards` after both loops. -/
def joinMap (primary secondary : List LeaderboardEntry) :
    List (String × LeaderboardEntry) :=
  secondary.foldl upsertSecondary (primary.foldl (fun acc e => mapSet acc e.id e) [])

/-- `mergeLeaderboards(primary, secondary)` of leaderboard-api.js: id-keyed
join into a `Map` (primary first, then each secondary entry replaces the
incumbent iff it `beats` it), then the values sorted descending by score
and truncated to `MAX_LEADERBOARD_SIZE` (100). -/
def mergeLeaderboards (primary secondary : List LeaderboardEntry) : List LeaderboardEntry :=
  (List.insertionSort scoreDesc ((joinMap primary secondary).map (fun p => p.2))).take 100

/-- `find` of an entry by id in a plain entry list. -/
def lookupById (l : List LeaderboardEntry) (k : String) : Option LeaderboardEntry :=
  l.find? (fun e => e.id = k)

/-- The identity object supplied by the Telegram collaborator (`getUser()`),
as read by `updateLeaderboard`: `user.id?.toString() || 'anonymous'` and
`user.first_name || user.username || 'Anonymous'`. -/
structure TelegramUser where
  id : Option Nat
  firstName : Option String
  username : Option String
  deriving Repr, DecidableEq

/-- `user.id?.toString() || 'anonymous'` (the string "0" is truthy in JS). -/
def idStringOf (u : TelegramUser) : String :=
  match u.id with
  | some n => toString n
  | none => "anonymous"

/-- `user.first_name || user.username || 'Anonymous'`. -/
def displayNameOf (u : TelegramUser) : String :=
  jsOrStr u.firstName (jsOrStr u.username "Anonymous")

/-- The sanitized `playerEntry` object built by `updateLeaderboard`. -/
def mkPlayerEntry (sanitize : String → String) (u : TelegramUser) (score : ℚ)
    (now : Nat) (sessionId : String) : LeaderboardEntry :=
  { id := sanitize (idStringOf u)
    name := sanitize (displayNameOf u)
    score := Int.floor score
    timestamp := now
    session := sessionId }

/-- `updateLeaderboard(score)` of leaderboard-api.js acting on the module's
`leaderboard` array and (through `enqueueSync`) on the persistence module's
sync queue.  Invalid parameters (no user, non-number or negative score) are
a logged no-op.  Otherwise: build the player's entry (score floored), drop
any existing entry with the player's id, append, sort descending by score,
truncate to 100, and — when running inside Telegram — enqueue one
`leaderboard_update` sync item with `priority: 'normal'` and `retries: 3`.
`sessionId` models `generateSessionId()`, `genSyncId` models
`generateSyncId()`; local persistence (`saveState`) is a side effect outside
the data model. -/
def updateLeaderboard (sanitize : String → String) (board : List LeaderboardEntry)
    (queue : List (SyncQueueItem LeaderboardEntry)) (user : Option TelegramUser)
    (score : ℚ) (now : Nat) (sessionId : String) (insideTelegram : Bool)
    (genSyncId : String) : List LeaderboardEntry × List (SyncQueueItem LeaderboardEntry) :=
  match user with
  | none => (board, queue)
  | some u =>
    if score < 0 then (board, queue)
    else
      let playerEntry := mkPlayerEntry sanitize u score now sessionId
      let board := board.filter (fun entry => entry.id ≠ playerEntry.id)
      let board := board ++ [playerEntry]
      let board := List.insertionSort scoreDesc board
      let board := board.take 100
      let queue :=
        if insideTelegram then
          enqueueSync sanitize queue genSyncId now
            { type := some "leaderboard_update", data := playerEntry,
              maxAttempts := none, priority := some "normal", retries := some 3 }
        else queue
      (board, queue)

/-! ### Leaderboard-merge theorems (claim C6) -/

theorem mapGet_mapSet_self (m : List (String × LeaderboardEntry)) (k : String)
    (v : LeaderboardEntry) : mapGet (mapSet m k v) k = some v := by
  unfold mapSet mapGet
  by_cases hany : m.any (fun p => p.1 = k)
  · rw [if_pos hany]
    have hpred : (fun p : String × LeaderboardEntry => decide (p.1 = k)) ∘
        (fun p : String × LeaderboardEntry => if p.1 = k then (k, v) else p) =
        (fun p : String × LeaderboardEntry => decide (p.1 = k)) := by
      funext p
      by_cases hp : p.1 = k <;> simp [hp]
    rw [List.find?_map, hpred]
    have hsome : (m.find? (fun p => decide (p.1 = k))).isSome := by
      rw [List.find?_isSome]
      obtain ⟨p0, hp0, hp0k⟩ := List.any_eq_true.mp hany
      exact ⟨p0, hp0, hp0k⟩
    obtain ⟨q, hq⟩ := Option.isSome_iff_exists.mp hsome
    have hqk : q.1 = k := by simpa using List.find?_some hq
    rw [hq]
    simp [hqk]
  · rw [if_neg hany, List.find?_append]
    have h1 : m.find? (fun p => decide (p.1 = k)) = none := by
      rw [List.find?_eq_none]
      intro p hp
      simp only [decide_eq_true_eq]
      intro hpk
      exact hany (List.any_eq_true.mpr ⟨p, hp, by simp [hpk]⟩)
    rw [h1]
    simp

theorem mapGet_mapSet_ne (m : List (String × LeaderboardEntry)) (k k' : String)
    (v : LeaderboardEntry) (h : k' ≠ k) : mapGet (mapSet m k v) k' = mapGet m k' := by
  unfold mapSet mapGet
  by_cases hany : m.any (fun p => p.1 = k)
  · rw [if_pos hany]
    have hpred : (fun p : String × LeaderboardEntry => decide (p.1 = k')) ∘
        (fun p : String × LeaderboardEntry => if p.1 = k then (k, v) else p) =
        (fun p : String × LeaderboardEntry => decide (p.1 = k')) := by
      funext p
      by_cases hp : p.1 = k
      · simp [hp, Ne.symm h]
      · simp [hp]
    rw [List.find?_map, hpred]
    cases hq : m.find? (fun p => decide (p.1 = k')) with
    | none => simp
    | some q =>
      have hqk : q.1 = k' := by simpa using List.find?_some hq
      have hqne : ¬q.1 = k := by rw [hqk]; exact h
      simp [hqne]
  · rw [if_neg hany, List.find?_append]
    have h2 : List.find? (fun p : String × LeaderboardEntry => decide (p.1 = k')) [(k, v)] =
        none := by
      rw [List.find?_cons_of_neg _ (by simpa using Ne.symm h)]
      rfl
    rw [h2]
    cases hq : m.find? (fun p => decide (p.1 = k')) <;> simp

theorem keys_mapSet (m : List (String × LeaderboardEntry)) (k : String)
    (v : LeaderboardEntry) :
    (mapSet m k v).map (fun p => p.1) =
      if m.any (fun p => p.1 = k) then m.map (fun p => p.1)
      else m.map (fun p => p.1) ++ [k] := by
  unfold mapSet
  by_cases hany : m.any (fun p => p.1 = k)
  · rw [if_pos hany, if_pos hany, List.map_map]
    apply List.map_congr_left
    intro p hp
    by_cases hp1 : p.1 = k <;> simp [hp1]
  · rw [if_neg hany, if_neg hany]
    simp

theorem keys_nodup_mapSet (m : List (String × LeaderboardEntry)) (k : String)
    (v : LeaderboardEntry) (h : (m.map (fun p => p.1)).Nodup) :
    ((mapSet m k v).map (fun p => p.1)).Nodup := by
  rw [keys_mapSet]
  by_cases hany : m.any (fun p => p.1 = k)
  · rw [if_pos hany]; exact h
  · rw [if_neg hany]
    have hk : k ∉ m.map (fun p => p.1) := by
      intro hmem
      obtain ⟨p, hp, hpk⟩ := List.mem_map.mp hmem
      exact hany (List.any_eq_true.mpr ⟨p, hp, by simp [hpk]⟩)
    rw [List.nodup_append]
    refine ⟨h, List.nodup_singleton k, ?_⟩
    intro a ha hka
    rw [List.mem_singleton] at hka
    exact hk (hka ▸ ha)

theorem mem_mapSet (m : List (String × LeaderboardEntry)) (k : String)
    (v : LeaderboardEntry) (p : String × LeaderboardEntry) (hp : p ∈ mapSet m k v) :
    p ∈ m ∨ p = (k, v) := by
  unfold mapSet at hp
  by_cases hany : m.any (fun q => q.1 = k)
  · rw [if_pos hany] at hp
    obtain ⟨q, hq, hqe⟩ := List.mem_map.mp hp
    by_cases hq1 : q.1 = k
    · right; rw [← hqe]; simp [hq1]
    · left; rw [← hqe]; simpa [hq1] using hq
  · rw [if_neg hany] at hp
    rcases List.mem_append.mp hp with hin | hone
    · exact Or.inl hin
    · exact Or.inr (List.mem_singleton.mp hone)

theorem keys_nodup_upsert (m : List (String × LeaderboardEntry)) (e : LeaderboardEntry)
    (h : (m.map (fun p => p.1)).Nodup) :
    ((upsertSecondary m e).map (fun p => p.1)).Nodup := by
  unfold upsertSecondary
  cases mapGet m e.id with
  | none => exact keys_nodup_mapSet m e.id e h
  | some existing =>
    dsimp only
    split_ifs
    · exact keys_nodup_mapSet m e.id e h
    · exact h

theorem mem_upsert (m : List (String × LeaderboardEntry)) (e : LeaderboardEntry)
    (p : String × LeaderboardEntry) (hp : p ∈ upsertSecondary m e) :
    p ∈ m ∨ p = (e.id, e) := by
  unfold upsertSecondary at hp
  cases hm : mapGet m e.id with
  | none => rw [hm] at hp; exact mem_mapSet m e.id e p hp
  | some existing =>
    rw [hm] at hp
    dsimp only at hp
    split_ifs at hp
    · exact mem_mapSet m e.id e p hp
    · exact Or.inl hp

/-- The primary fold of `mergeLeaderboards` over a list with pairwise
distinct ids is the association list of the entries in order. -/
theorem foldl_mapSet_eq (A : List LeaderboardEntry)
    (init : List (String × LeaderboardEntry))
    (hdisj : ∀ e ∈ A, ∀ p ∈ init, p.1 ≠ e.id)
    (hnd : (A.map (fun e => e.id)).Nodup) :
    A.foldl (fun acc e => mapSet acc e.id e) init =
      init ++ A.map (fun e => (e.id, e)) := by
  induction A generalizing init with
  | nil => simp
  | cons e es ih =>
    simp only [List.map_cons, List.nodup_cons] at hnd
    simp only [List.foldl_cons]
    have hany : init.any (fun p => p.1 = e.id) = false := by
      rw [List.any_eq_false]
      intro p hp
      simpa using hdisj e (List.mem_cons_self e es) p hp
    have hset : mapSet init e.id e = init ++ [(e.id, e)] := by
      unfold mapSet
      rw [if_neg (by simp [hany])]
    rw [hset, ih (init ++ [(e.id, e)])]
    · simp
    · intro f hf p hp
      rcases List.mem_append.mp hp with hin | hone
      · exact hdisj f (List.mem_cons_of_mem e hf) p hin
      · rw [List.mem_singleton.mp hone]
        intro hek
        dsimp only at hek
        exact hnd.1 (hek ▸ List.mem_map_of_mem (fun q => q.id) hf)
    · exact hnd.2

/-- Lookup in the association list of an entry list is lookup by id. -/
theorem mapGet_map_pair (A : List LeaderboardEntry) (k : String) :
    mapGet (A.map (fun e => (e.id, e))) k = lookupById A k := by
  unfold mapGet lookupById
  rw [List.find?_map]
  have hpred : (fun p : String × LeaderboardEntry => decide (p.1 = k)) ∘
      (fun e : LeaderboardEntry => (e.id, e)) =
      (fun e : LeaderboardEntry => decide (e.id = k)) := rfl
  rw [hpred]
  cases A.find? (fun e => decide (e.id = k)) <;> rfl

theorem lookupById_eq_of_nodup_mem (A : List LeaderboardEntry) (e : LeaderboardEntry)
    (hnd : (A.map (fun q => q.id)).Nodup) (hmem : e ∈ A) :
    lookupById A e.id = some e := by
  unfold lookupById
  induction A with
  | nil => cases hmem
  | cons x xs ih =>
    simp only [List.map_cons, List.nodup_cons] at hnd
    rcases List.mem_cons.mp hmem with rfl | hmem'
    · simp [List.find?]
    · have hne : x.id ≠ e.id := fun h =>
        hnd.1 (h ▸ List.mem_map_of_mem (fun q => q.id) hmem')
      rw [List.find?_cons_of_neg _ (by simp [hne])]
      exact ih hnd.2 hmem'

theorem mapGet_upsert_ne (m : List (String × LeaderboardEntry)) (e : LeaderboardEntry)
    (k : String) (h : k ≠ e.id) : mapGet (upsertSecondary m e) k = mapGet m k := by
  unfold upsertSecondary
  cases hm : mapGet m e.id with
  | none => exact mapGet_mapSet_ne m e.id k e h
  | some existing =>
    dsimp only
    split_ifs
    · exact mapGet_mapSet_ne m e.id k e h
    · rfl

theorem mapGet_upsert_self (m : List (String × LeaderboardEntry)) (e : LeaderboardEntry) :
    mapGet (upsertSecondary m e) e.id =
      match mapGet m e.id with
      | none => some e
      | some existing => if beats e existing then some e else some existing := by
  unfold upsertSecondary
  cases hm : mapGet m e.id with
  | none => exact mapGet_mapSet_self m e.id e
  | some existing =>
    dsimp only
    split_ifs with hb
    · exact mapGet_mapSet_self m e.id e
    · exact hm

/-- Characterization of the secondary loop: the final value at key `k` is
the incumbent, the first secondary entry with that id, or the winner of the
`beats` comparison between the two. -/
theorem mapGet_foldl_upsert (B : List LeaderboardEntry)
    (m : List (String × LeaderboardEntry)) (k : String)
    (hndB : (B.map (fun e => e.id)).Nodup) :
    mapGet (B.foldl upsertSecondary m) k =
      match lookupById B k, mapGet m k with
      | none, r => r
      | some b, none => some b
      | some b, some a => if beats b a then some b else some a := by
  induction B generalizing m with
  | nil => simp [lookupById]
  | cons e es ih =>
    simp only [List.map_cons, List.nodup_cons] at hndB
    simp only [List.foldl_cons]
    rw [ih (upsertSecondary m e) hndB.2]
    by_cases hek : e.id = k
    · subst hek
      have hles : lookupById es e.id = none := by
        unfold lookupById
        rw [List.find?_eq_none]
        intro b hb
        simp only [decide_eq_true_eq]
        intro hbe
        exact hndB.1 (hbe ▸ List.mem_map_of_mem (fun q => q.id) hb)
      have hhead : lookupById (e :: es) e.id = some e := by
        unfold lookupById
        rw [List.find?_cons_of_pos _ (by simp)]
      rw [hles, hhead, mapGet_upsert_self]
      cases mapGet m e.id <;> rfl
    · have hl : lookupById (e :: es) k = lookupById es k := by
        unfold lookupById
        rw [List.find?_cons_of_neg _ (by simp [hek])]
      rw [hl, mapGet_upsert_ne m e k (fun hh => hek hh.symm)]

theorem mapGet_joinMap (A B : List LeaderboardEntry) (k : String)
    (hA : (A.map (fun e => e.id)).Nodup) (hB : (B.map (fun e => e.id)).Nodup) :
    mapGet (joinMap A B) k =
      match lookupById B k, lookupById A k with
      | none, r => r
      | some b, none => some b
      | some b, some a => if beats b a then some b else some a := by
  unfold joinMap
  rw [foldl_mapSet_eq A [] (by simp) hA, List.nil_append,
    mapGet_foldl_upsert B _ k hB, mapGet_map_pair]

theorem keys_nodup_foldl_upsert (B : List LeaderboardEntry)
    (m : List (String × LeaderboardEntry)) (h : (m.map (fun p => p.1)).Nodup) :
    ((B.foldl upsertSecondary m).map (fun p => p.1)).Nodup := by
  induction B generalizing m with
  | nil => exact h
  | cons e es ih => exact ih (upsertSecondary m e) (keys_nodup_upsert m e h)

theorem keys_nodup_joinMap (A B : List LeaderboardEntry)
    (hA : (A.map (fun e => e.id)).Nodup) :
    ((joinMap A B).map (fun p => p.1)).Nodup := by
  unfold joinMap
  refine keys_nodup_foldl_upsert B _ ?_
  rw [foldl_mapSet_eq A [] (by simp) hA, List.nil_append, List.map_map]
  exact hA

theorem mem_foldl_upsert (B : List LeaderboardEntry)
    (m : List (String × LeaderboardEntry)) (p : String × LeaderboardEntry)
    (hp : p ∈ B.foldl upsertSecondary m) :
    p ∈ m ∨ ∃ e ∈ B, p = (e.id, e) := by
  induction B generalizing m with
  | nil => exact Or.inl hp
  | cons e es ih =>
    rcases ih (upsertSecondary m e) hp with hin | ⟨f, hf, rfl⟩
    · rcases mem_upsert m e p hin with hm | rfl
      · exact Or.inl hm
      · exact Or.inr ⟨e, List.mem_cons_self e es, rfl⟩
    · exact Or.inr ⟨f, List.mem_cons_of_mem e hf, rfl⟩

theorem mem_foldl_mapSet (A : List LeaderboardEntry)
    (init : List (String × LeaderboardEntry)) (p : String × LeaderboardEntry)
    (hp : p ∈ A.foldl (fun acc e => mapSet acc e.id e) init) :
    p ∈ init ∨ ∃ e ∈ A, p = (e.id, e) := by
  induction A generalizing init with
  | nil => exact Or.inl hp
  | cons e es ih =>
    rcases ih (mapSet init e.id e) hp with hin | ⟨f, hf, rfl⟩
    · rcases mem_mapSet init e.id e p hin with hm | rfl
      · exact Or.inl hm
      · exact Or.inr ⟨e, List.mem_cons_self e es, rfl⟩
    · exact Or.inr ⟨f, List.mem_cons_of_mem e hf, rfl⟩

/-- Every pair of the join is `(e.id, e)` for an entry `e` of one input. -/
theorem wf_joinMap (A B : List LeaderboardEntry) (p : String × LeaderboardEntry)
    (hp : p ∈ joinMap A B) : p.1 = p.2.id ∧ p.2 ∈ A ++ B := by
  unfold joinMap at hp
  rcases mem_foldl_upsert B _ p hp with hin | ⟨e, he, rfl⟩
  · rcases mem_foldl_mapSet A [] p hin with h0 | ⟨e, he, rfl⟩
    · cases h0
    · exact ⟨rfl, List.mem_append_left B he⟩
  · exact ⟨rfl, List.mem_append_right A he⟩

theorem mapGet_eq_of_nodup_keys_mem (m : List (String × LeaderboardEntry))
    (p : String × LeaderboardEntry) (hnd : (m.map (fun q => q.1)).Nodup)
    (hp : p ∈ m) : mapGet m p.1 = some p.2 := by
  unfold mapGet
  induction m with
  | nil => cases hp
  | cons x xs ih =>
    simp only [List.map_cons, List.nodup_cons] at hnd
    rcases List.mem_cons.mp hp with rfl | hp'
    · rw [List.find?_cons_of_pos _ (by simp)]
      rfl
    · have hne : x.1 ≠ p.1 := fun h =>
        hnd.1 (h ▸ List.mem_map_of_mem (fun q => q.1) hp')
      rw [List.find?_cons_of_neg _ (by simp [hne])]
      exact ih hnd.2 hp'

theorem mem_of_mapGet_eq (m : List (String × LeaderboardEntry))
    (p : String × LeaderboardEntry) (h : mapGet m p.1 = some p.2) : p ∈ m := by
  unfold mapGet at h
  cases hq : m.find? (fun q => decide (q.1 = p.1)) with
  | none => rw [hq] at h; cases h
  | some q =>
    rw [hq] at h
    have hq1 : q.1 = p.1 := by simpa using List.find?_some hq
    have hq2 : q.2 = p.2 := by simpa using h
    have hqp : q = p := Prod.ext hq1 hq2
    exact hqp ▸ List.mem_of_find?_eq_some hq

theorem mapGet_joinMap_comm (A B : List LeaderboardEntry)
    (hA : (A.map (fun e => e.id)).Nodup) (hB : (B.map (fun e => e.id)).Nodup)
    (hcross : ∀ a ∈ A, ∀ b ∈ B, a.score ≠ b.score) (k : String) :
    mapGet (joinMap A B) k = mapGet (joinMap B A) k := by
  rw [mapGet_joinMap A B k hA hB, mapGet_joinMap B A k hB hA]
  cases hb : lookupById B k with
  | none => cases ha : lookupById A k <;> rfl
  | some b =>
    cases ha : lookupById A k with
    | none => rfl
    | some a =>
      have hamem : a ∈ A := List.mem_of_find?_eq_some ha
      have hbmem : b ∈ B := List.mem_of_find?_eq_some hb
      have hne : a.score ≠ b.score := hcross a hamem b hbmem
      dsimp only
      rcases lt_trichotomy a.score b.score with hlt | heq | hgt
      · rw [if_pos (show beats b a from Or.inl hlt),
          if_neg (show ¬beats a b by unfold beats; omega)]
      · exact absurd heq hne
      · rw [if_neg (show ¬beats b a by unfold beats; omega),
          if_pos (show beats a b from Or.inl hgt)]

theorem joinMap_perm (A B : List LeaderboardEntry)
    (hA : (A.map (fun e => e.id)).Nodup) (hB : (B.map (fun e => e.id)).Nodup)
    (hcross : ∀ a ∈ A, ∀ b ∈ B, a.score ≠ b.score) :
    List.Perm (joinMap A B) (joinMap B A) := by
  have hnd1 := keys_nodup_joinMap A B hA
  have hnd2 := keys_nodup_joinMap B A hB
  have hcross' : ∀ b ∈ B, ∀ a ∈ A, b.score ≠ a.score :=
    fun b hb a ha => (hcross a ha b hb).symm
  rw [List.perm_ext_iff_of_nodup (List.Nodup.of_map _ hnd1) (List.Nodup.of_map _ hnd2)]
  intro p
  constructor
  · intro hp
    have hg := mapGet_eq_of_nodup_keys_mem _ p hnd1 hp
    rw [mapGet_joinMap_comm A B hA hB hcross p.1] at hg
    exact mem_of_mapGet_eq _ p hg
  · intro hp
    have hg := mapGet_eq_of_nodup_keys_mem _ p hnd2 hp
    rw [mapGet_joinMap_comm B A hB hA hcross' p.1] at hg
    exact mem_of_mapGet_eq _ p hg

theorem values_joinMap_mem (A B : List LeaderboardEntry) (v : LeaderboardEntry)
    (hv : v ∈ (joinMap A B).map (fun p => p.2)) : v ∈ A ++ B := by
  obtain ⟨p, hp, rfl⟩ := List.mem_map.mp hv
  exact (wf_joinMap A B p hp).2

theorem values_nodup_joinMap (A B : List LeaderboardEntry)
    (hA : (A.map (fun e => e.id)).Nodup) :
    ((joinMap A B).map (fun p => p.2)).Nodup := by
  have hkeys := keys_nodup_joinMap A B hA
  have hswap : (joinMap A B).map (fun p => p.1) =
      ((joinMap A B).map (fun p => p.2)).map (fun e => e.id) := by
    rw [List.map_map]
    apply List.map_congr_left
    intro p hp
    exact (wf_joinMap A B p hp).1
  rw [hswap] at hkeys
  exact List.Nodup.of_map _ hkeys

/-- The strict descending-score order; two sorted permutations agree when
all scores are distinct. -/
def scoreDescStrict (a b : LeaderboardEntry) : Prop := b.score < a.score

instance : IsAntisymm LeaderboardEntry scoreDescStrict where
  antisymm a b h1 h2 := absurd (lt_trans h1 h2) (lt_irrefl _)

/-- C6, commutativity half: with pairwise-distinct scores (and well-formed,
id-deduplicated inputs), the merge is order-independent. -/
theorem mergeLeaderboards_comm (A B : List LeaderboardEntry)
    (hA : (A.map (fun e => e.id)).Nodup) (hB : (B.map (fun e => e.id)).Nodup)
    (hS : (A ++ B).Pairwise (fun e f => e.score ≠ f.score)) :
    mergeLeaderboards A B = mergeLeaderboards B A := by
  have hcross : ∀ a ∈ A, ∀ b ∈ B, a.score ≠ b.score := by
    intro a ha b hb
    exact (List.pairwise_append.mp hS).2.2 a ha b hb
  have hperm := joinMap_perm A B hA hB hcross
  have hvperm : List.Perm ((joinMap A B).map (fun p => p.2))
      ((joinMap B A).map (fun p => p.2)) := hperm.map _
  have hsym : Symmetric (fun e f : LeaderboardEntry => e.score ≠ f.score) :=
    fun x y h => h.symm
  have hforall := List.Pairwise.forall hsym hS
  have hscores1 : ((joinMap A B).map (fun p => p.2)).Pairwise
      (fun e f => e.score ≠ f.score) := by
    refine List.Pairwise.imp_of_mem ?_ (values_nodup_joinMap A B hA)
    intro a b ha hb hne
    exact hforall (values_joinMap_mem A B a ha) (values_joinMap_mem A B b hb) hne
  have hscores2 : ((joinMap B A).map (fun p => p.2)).Pairwise
      (fun e f => e.score ≠ f.score) :=
    ((hvperm.pairwise_iff (fun h => Ne.symm h)).mp hscores1)
  have hstrict : ∀ (l : List LeaderboardEntry),
      l.Pairwise (fun e f => e.score ≠ f.score) →
      List.Pairwise scoreDescStrict (List.insertionSort scoreDesc l) := by
    intro l hl
    have hsorted := List.sorted_insertionSort scoreDesc l
    have hne : (List.insertionSort scoreDesc l).Pairwise (fun e f => e.score ≠ f.score) :=
      ((List.perm_insertionSort scoreDesc l).pairwise_iff (fun h => Ne.symm h)).mpr hl
    have hand := List.Pairwise.and hsorted hne
    refine hand.imp ?_
    intro a b hab
    have h1 : b.score ≤ a.score := hab.1
    have h2 : a.score ≠ b.score := hab.2
    unfold scoreDescStrict
    omega
  have hs1 := hstrict _ hscores1
  have hs2 := hstrict _ hscores2
  have hsortperm : List.Perm (List.insertionSort scoreDesc ((joinMap A B).map (fun p => p.2)))
      (List.insertionSort scoreDesc ((joinMap B A).map (fun p => p.2))) :=
    ((List.perm_insertionSort scoreDesc _).trans hvperm).trans
      (List.perm_insertionSort scoreDesc _).symm
  have heq := List.eq_of_perm_of_sorted hsortperm hs1 hs2
  unfold mergeLeaderboards
  rw [heq]

theorem foldl_upsert_self (B : List LeaderboardEntry)
    (m : List (String × LeaderboardEntry))
    (h : ∀ e ∈ B, mapGet m e.id = some e) :
    B.foldl upsertSecondary m = m := by
  induction B with
  | nil => rfl
  | cons e es ih =>
    simp only [List.foldl_cons]
    have hupz : upsertSecondary m e = m := by
      unfold upsertSecondary
      rw [h e (List.mem_cons_self e es)]
      dsimp only
      rw [if_neg (show ¬beats e e by unfold beats; omega)]
    rw [hupz]
    exact ih (fun f hf => h f (List.mem_cons_of_mem e hf))

/-- C6, idempotence half: merging a well-formed board with itself returns the
board, re-sorted descending by score and truncated to 100. -/
theorem mergeLeaderboards_self (A : List LeaderboardEntry)
    (hA : (A.map (fun e => e.id)).Nodup) :
    mergeLeaderboards A A = (List.insertionSort scoreDesc A).take 100 := by
  unfold mergeLeaderboards joinMap
  rw [foldl_mapSet_eq A [] (by simp) hA, List.nil_append]
  rw [foldl_upsert_self A (A.map (fun e => (e.id, e)))
    (fun e he => by rw [mapGet_map_pair]; exact lookupById_eq_of_nodup_mem A e hA he)]
  rw [List.map_map]
  have hid : ((fun p : String × LeaderboardEntry => p.2) ∘
      fun e : LeaderboardEntry => (e.id, e)) = id := rfl
  rw [hid, List.map_id]

/-- C6: `mergeLeaderboards` is idempotent up to the re-sort/truncation, and
order-independent whenever all scores and timestamps are pairwise distinct
(the inputs being well-formed leaderboard collections: at most one entry per
id, the stated data-model invariant). -/
theorem merge_idempotent_and_comm (A B : List LeaderboardEntry)
    (hA : (A.map (fun e => e.id)).Nodup) (hB : (B.map (fun e => e.id)).Nodup)
    (hS : (A ++ B).Pairwise (fun e f => e.score ≠ f.score))
    (hT : (A ++ B).Pairwise (fun e f => e.timestamp ≠ f.timestamp)) :
    mergeLeaderboards A A = (List.insertionSort scoreDesc A).take 100 ∧
    mergeLeaderboards A B = mergeLeaderboards B A :=
  ⟨mergeLeaderboards_self A hA, mergeLeaderboards_comm A B hA hB hS⟩

/-- Three concrete distinct entries for the merge witness. -/
def entryAlice : LeaderboardEntry :=
  { id := "alice", name := "Alice", score := 30, timestamp := 3, session := "s1" }

def entryBob : LeaderboardEntry :=
  { id := "bob", name := "Bob", score := 20, timestamp := 2, session := "s2" }

def entryCarol : LeaderboardEntry :=
  { id := "carol", name := "Carol", score := 10, timestamp := 1, session := "s3" }

/-- Witness for `merge_idempotent_and_comm` at concrete boards with distinct
ids, scores and timestamps. -/
theorem merge_idempotent_and_comm_witness :
    mergeLeaderboards [entryBob, entryAlice] [entryBob, entryAlice] =
      (List.insertionSort scoreDesc [entryBob, entryAlice]).take 100 ∧
    mergeLeaderboards [entryBob, entryAlice] [entryCarol] =
      mergeLeaderboards [entryCarol] [entryBob, entryAlice] :=
  merge_idempotent_and_comm [entryBob, entryAlice] [entryCarol]
    (by decide) (by decide) (by decide) (by decide)

/-! ### Leaderboard-update theorems (claim C9) -/

/-- A valid Telegram user for the concrete scenarios. -/
def sampleUser : TelegramUser := { id := some 42, firstName := some "Ann", username := none }

/-- C9 counterexample: a valid player-local update enqueues its sync item
with `maxAttempts = 5` (the `enqueueSync` default — the caller's
`retries: 3` is stored in the separate, unused `retries` field), not with a
maximum of 3 processing attempts. -/
theorem updateLeaderboard_maxAttempts_counterexample :
    ((updateLeaderboard (fun s => s) [] [] (some sampleUser) 100 7 "sess" true
        "sync_1").2.map (fun i => (i.maxAttempts, i.retries, i.priority))) =
      [(5, 3, "normal")] ∧
    ((updateLeaderboard (fun s => s) [] [] (some sampleUser) 100 7 "sess" true
        "sync_1").2.map (fun i => i.maxAttempts)) ≠ [3] := by
  constructor <;>
  norm_num [updateLeaderboard, mkPlayerEntry, enqueueSync, mkSyncItem, sampleUser,
    idStringOf, displayNameOf, jsOrStr, jsOrNat, List.insertionSort, List.orderedInsert]

/-- C9 (amended): for a valid user and non-negative score, with the queue
under its cap, `updateLeaderboard` removes the player's old entry, inserts
the new one, re-sorts descending by score, truncates to 100, and enqueues
exactly one `leaderboard_update` sync item of priority `'normal'` whose
maximum number of processing attempts is the default 5 (its `attempts`
counter starting at 0); the caller-supplied `retries: 3` is carried in an
unused field. -/
theorem updateLeaderboard_amended (sanitize : String → String)
    (board : List LeaderboardEntry) (queue : List (SyncQueueItem LeaderboardEntry))
    (u : TelegramUser) (score : ℚ) (now : Nat) (sessionId genSyncId : String)
    (hscore : 0 ≤ score) (hqlen : queue.length < 1000) :
    (updateLeaderboard sanitize board queue (some u) score now sessionId true
        genSyncId).1 =
      (List.insertionSort scoreDesc
        (board.filter
          (fun entry => entry.id ≠ (mkPlayerEntry sanitize u score now sessionId).id) ++
          [mkPlayerEntry sanitize u score now sessionId])).take 100 ∧
    (updateLeaderboard sanitize board queue (some u) score now sessionId true
        genSyncId).2.length = queue.length + 1 ∧
    mkSyncItem sanitize genSyncId now
        { type := some "leaderboard_update",
          data := mkPlayerEntry sanitize u score now sessionId,
          maxAttempts := none, priority := some "normal", retries := some 3 } ∈
      (updateLeaderboard sanitize board queue (some u) score now sessionId true
        genSyncId).2 ∧
    (mkSyncItem sanitize genSyncId now
        { type := some "leaderboard_update",
          data := mkPlayerEntry sanitize u score now sessionId,
          maxAttempts := none, priority := some "normal",
          retries := some 3 } : SyncQueueItem LeaderboardEntry).maxAttempts = 5 ∧
    (mkSyncItem sanitize genSyncId now
        { type := some "leaderboard_update",
          data := mkPlayerEntry sanitize u score now sessionId,
          maxAttempts := none, priority := some "normal",
          retries := some 3 } : SyncQueueItem LeaderboardEntry).priority = "normal" ∧
    (mkSyncItem sanitize genSyncId now
        { type := some "leaderboard_update",
          data := mkPlayerEntry sanitize u score now sessionId,
          maxAttempts := none, priority := some "normal",
          retries := some 3 } : SyncQueueItem LeaderboardEntry).attempts = 0 := by
  have hnotlt : ¬score < 0 := not_lt.mpr hscore
  unfold updateLeaderboard
  dsimp only
  rw [if_neg hnotlt, if_pos rfl]
  have hperm := List.perm_insertionSort syncLe
    (queue ++ [mkSyncItem sanitize genSyncId now
      { type := some "leaderboard_update",
        data := mkPlayerEntry sanitize u score now sessionId,
        maxAttempts := none, priority := some "normal", retries := some 3 }])
  have hlen1 : (List.insertionSort syncLe
      (queue ++ [mkSyncItem sanitize genSyncId now
        { type := some "leaderboard_update",
          data := mkPlayerEntry sanitize u score now sessionId,
          maxAttempts := none, priority := some "normal",
          retries := some 3 }])).length = queue.length + 1 := by
    rw [hperm.length_eq]
    simp
  refine ⟨rfl, ?_, ?_, rfl, rfl, rfl⟩
  · unfold enqueueSync
    dsimp only
    rw [if_neg (by omega)]
    exact hlen1
  · unfold enqueueSync
    dsimp only
    rw [if_neg (by omega)]
    rw [List.mem_insertionSort]
    simp

/-- Witness for `updateLeaderboard_amended`: the sample update on empty
board and queue enqueues exactly one item. -/
theorem updateLeaderboard_amended_witness :
    (updateLeaderboard (fun s => s) [] [] (some sampleUser) 100 7 "sess" true
      "sync_1").2.length =
      ([] : List (SyncQueueItem LeaderboardEntry)).length + 1 :=
  (updateLeaderboard_amended (fun s => s) [] [] sampleUser 100 7 "sess" "sync_1"
    (by norm_num) (by norm_num)).2.1

end NoGasSlaps
